import Mathlib

/-
Verification of the schedule-rendering core of calendar.py.

The source program is a single Python file built around pandas dataframes.
We shallow-embed the pure transformation core:

  * parse_time_minutes  : textual clock time to minute offset (Time Resolver)
  * sort_days           : day-label canonical ordering (Day Ordering)
  * normalize_dataframe : column classification and field synthesis
                          (Record Normalizer)
  * create_calendar_heatmap (inner cell resolution) : Grid Builder
  * create_excel_export : Export Table Builder

Python strings are modelled as Lean String (a list of characters); the
Python-specific behaviours that matter here (str.strip, str.lower,
str.split, int(), truthiness of integers, dict lookup order) are embedded
explicitly below.  pandas dataframes are modelled as an ordered list of
named columns of cells plus a row count.
-/

namespace Calendar

/-! ## Python string primitives -/

/-- Characters removed by Python str.strip with no arguments
(ASCII whitespace; unicode spaces do not occur in the data handled here). -/
def pyIsSpace (c : Char) : Bool :=
  c == ' ' || c == '\t' || c == '\n' || c == '\r' || c == '\x0b' || c == '\x0c'

/-- Remove trailing whitespace characters. -/
def dropTrailWs (l : List Char) : List Char :=
  (l.reverse.dropWhile pyIsSpace).reverse

/-- Python str.strip on a character list: drop leading and trailing whitespace. -/
def stripChars (l : List Char) : List Char :=
  dropTrailWs (l.dropWhile pyIsSpace)

/-- Python str.strip. -/
def pyStrip (s : String) : String :=
  ⟨stripChars s.data⟩

/-- Lower-case one character (ASCII; the labels handled by the program are
ASCII where case matters). -/
def pyLowerChar (c : Char) : Char :=
  if c.isUpper then Char.ofNat (c.toNat + 32) else c

/-- Python str.lower. -/
def pyLower (s : String) : String :=
  ⟨s.data.map pyLowerChar⟩

/-- Python str.split(sep) with a one-character separator: keeps empty pieces,
so "".split(sep) = [""] and ":".split(":") = ["", ""]. -/
def splitOnChar (sep : Char) : List Char → List (List Char)
  | [] => [[]]
  | c :: rest =>
    if c == sep then [] :: splitOnChar sep rest
    else
      match splitOnChar sep rest with
      | [] => [[c]]
      | p :: ps => (c :: p) :: ps

/-- ASCII digit test. -/
def isAsciiDigit (c : Char) : Bool :=
  '0' ≤ c && c ≤ '9'

/-- Numeric value of an ASCII digit. -/
def digitVal (c : Char) : Nat :=
  c.toNat - 48

/-- Read a nonempty all-digit character list as a natural number. -/
def digitsToNat (l : List Char) : Option Nat :=
  if l.isEmpty then none
  else if l.all isAsciiDigit then
    some (l.foldl (fun acc c => acc * 10 + digitVal c) 0)
  else none

/-- Python int(str): strip surrounding whitespace, optional sign, decimal
digits; anything else raises ValueError, modelled as none.  (Underscore
digit grouping and non-ASCII digits are not modelled; no claim involves
them.) -/
def pyInt (s : String) : Option Int :=
  match stripChars s.data with
  | '+' :: ds => (digitsToNat ds).map (fun n => (n : Int))
  | '-' :: ds => (digitsToNat ds).map (fun n => -(n : Int))
  | ds => (digitsToNat ds).map (fun n => (n : Int))

/-! ## Time Resolver: parse_time_minutes (calendar.py lines 133-145)

The Python function first tests pd.isna; its callers pass values taken from
a normalized dataframe, where every cell is a string, and pd.isna of a
string is always False, so the embedding takes a String.  The try/except
wrapper turns any int() failure into None; pyInt returning none models
exactly that. -/

/-- Embedding of parse_time_minutes: convert "HH:MM"-shaped text to minutes
since midnight, None (none) when unparsable.  Mirrors the source line by
line: strip, require a ":" character, split on ":", require at least two
parts, int() the first two parts, hours times 60 plus minutes. -/
def parse_time_minutes (timeStr : String) : Option Int :=
  let t := stripChars timeStr.data
  if t.contains ':' then
    let parts := splitOnChar ':' t
    if 2 ≤ parts.length then
      match parts with
      | p0 :: p1 :: _ =>
        match pyInt (String.mk p0), pyInt (String.mk p1) with
        | some h, some m => some (h * 60 + m)
        | _, _ => none
      | _ => none
    else none
  else none

/-- The parsing rule exactly as the specification words it: trim; require at
least one ":" separator; split on ":"; require at least two parts; parse the
first two parts as integers; result is hours times 60 plus minutes; any
deviation yields the unparsable sentinel. -/
def parseClockSpec (text : String) : Option Int :=
  let t := stripChars text.data
  if t.contains ':' then
    match splitOnChar ':' t with
    | p0 :: p1 :: _ =>
      match pyInt (String.mk p0), pyInt (String.mk p1) with
      | some h, some m => some (h * 60 + m)
      | _, _ => none
    | _ => none
  else none

/-- C3: parse_time_minutes implements the specified parsing rule at every
input (trim, require a separator, at least two parts, first two parts as
integers, hours times 60 plus minutes, extra parts ignored, sentinel on any
deviation, never raises - the embedding is a total function), and the four
concrete values given by the specification hold. -/
theorem c3_parse_clock :
    (∀ s : String, parse_time_minutes s = parseClockSpec s) ∧
    parse_time_minutes "08:00" = some 480 ∧
    parse_time_minutes "08:00:00" = some 480 ∧
    parse_time_minutes "8" = none ∧
    parse_time_minutes "" = none := by
  refine ⟨fun s => ?_, rfl, rfl, rfl, rfl⟩
  unfold parse_time_minutes parseClockSpec
  dsimp only
  cases hc : (stripChars s.data).contains ':' with
  | false => simp
  | true =>
    simp only [if_true]
    cases hp : splitOnChar ':' (stripChars s.data) with
    | nil => simp
    | cons p0 ps =>
      cases ps with
      | nil => simp
      | cons p1 rest =>
        have hlen : 2 ≤ (p0 :: p1 :: rest).length := by
          simp only [List.length_cons]
          omega
        rw [if_pos hlen]

/-! ## Archetype Registry (calendar.py lines 21-87)

GREEK_ARCHETYPES is a Python dict literal; insertion order is preserved by
Python dicts, so it is modelled as an association list in source order. -/

/-- One archetype catalog entry: description, color, symbol. -/
structure ArchInfo where
  description : String
  color : String
  symbol : String
deriving DecidableEq, Repr

/-- Embedding of the GREEK_ARCHETYPES dict literal, in source order. -/
def GREEK_ARCHETYPES : List (String × ArchInfo) :=
  [("CHR – Chronos", ⟨"Sequential, measurable clock time", "#1f77b4", "⏱️"⟩),
   ("KAI – Kairos", ⟨"Perfect timing, opportune moments", "#ff7f0e", "🎯"⟩),
   ("AIO – Aion", ⟨"Timeless, eternal perspective", "#2ca02c", "♾️"⟩),
   ("ANA – Ananke", ⟨"Necessity, urgent obligations", "#d62728", "⚡"⟩),
   ("HEL – Helios", ⟨"Daylight, active productive hours", "#ffd700", "☀️"⟩),
   ("NYX – Nyx", ⟨"Night-time, rest and shadow work", "#4b0082", "🌙"⟩),
   ("EOS – Eos", ⟨"Dawn, fresh starts and new beginnings", "#ff69b4", "🌅"⟩),
   ("HOR – Horae", ⟨"Natural rhythms, seasons and cycles", "#32cd32", "🌱"⟩),
   ("MNE – Mnemosyne", ⟨"Memory work, reflection and learning", "#8a2be2", "💭"⟩),
   ("HYP – Hypnos", ⟨"Sleep, deep rest and recovery", "#4682b4", "😴"⟩),
   ("ONE – Oneiros", ⟨"Dreams, imagination and creative play", "#da70d6", "✨"⟩),
   ("Movement/Commute", ⟨"Travel and transportation", "#7f7f7f", "🚌"⟩),
   ("(empty)", ⟨"Free/unscheduled time", "#f0f0f0", "⭕"⟩)]

/-- Python GREEK_ARCHETYPES.get(key): first (only) entry with that key. -/
def greekLookup (key : String) : Option ArchInfo :=
  (GREEK_ARCHETYPES.find? (fun p => p.1 == key)).map (·.2)

/-! ## Events

A row of a normalized dataframe, with the six canonical fields, every value
a string (the shape normalize_dataframe guarantees, proved below for C4). -/

/-- One canonical event record. -/
structure Event where
  day : String
  title : String
  start : String
  «end» : String
  archetype : String
  notes : String
deriving DecidableEq, Repr

/-! ## Grid Builder: create_calendar_heatmap (calendar.py lines 196-303) -/

/-- The day filter used by both the Grid Builder and the Export Table
Builder (lines 222-223 and 350-351): the day cell of the event, stripped
and lower-cased, equals the stripped and lower-cased day label. -/
def dayMatch (ev : Event) (day : String) : Bool :=
  pyLower (pyStrip ev.day) == pyLower (pyStrip day)

/-- Slot occupancy as the source computes it (lines 227-230):
start_min = parse_time_minutes(start), end_min = parse_time_minutes(end),
then the Python test "start_min and end_min and start_min <= slot < end_min".
Python truthiness makes an integer 0 falsy exactly like None, which the
s != 0 and e != 0 conjuncts capture. -/
def occupiesSlot (ev : Event) (slot : Int) : Bool :=
  match parse_time_minutes ev.start, parse_time_minutes ev.«end» with
  | some s, some e => s != 0 && e != 0 && decide (s ≤ slot) && decide (slot < e)
  | _, _ => false

/-- Whether an event is gathered for a given day and slot (the body of the
loop at lines 226-231). -/
def eventMatches (ev : Event) (day : String) (slot : Int) : Bool :=
  dayMatch ev day && occupiesSlot ev slot

/-- The matching_events list built at lines 221-231: filter the schedule by
day, then keep the events occupying the slot, preserving stored row order. -/
def matchingEvents (events : List Event) (day : String) (slot : Int) : List Event :=
  (events.filter (fun ev => dayMatch ev day)).filter (fun ev => occupiesSlot ev slot)

/-- The event a cell resolves to: matching_events[0] when nonempty
(line 240), otherwise none (the empty sentinel branch, line 233). -/
def resolvedEvent (events : List Event) (day : String) (slot : Int) : Option Event :=
  (matchingEvents events day slot).head?

/-- Python range(start, stop, step) for positive step, on naturals.  The
fuel argument bounds the iteration count; stop iterations always suffice
for step at least 1. -/
def pyRangeAux : Nat → Nat → Nat → Nat → List Nat
  | 0, _, _, _ => []
  | fuel + 1, cur, stop, step =>
    if cur < stop then cur :: pyRangeAux fuel (cur + step) stop step else []

/-- Python range(start, stop, step). -/
def pyRange (start stop step : Nat) : List Nat :=
  pyRangeAux stop start stop step

/-- Two-digit decimal rendering, as Python format 02d. -/
def twoDigits (n : Nat) : String :=
  if n < 10 then "0" ++ toString n else toString n

/-- The slot label built at line 208. -/
def slotLabel (m : Nat) : String :=
  twoDigits (m / 60) ++ ":" ++ twoDigits (m % 60)

/-- One resolved cell: category index, display text, hover text (the
values appended to row_z, row_t, row_h). -/
structure CellData where
  z : Nat
  text : String
  hover : String
deriving DecidableEq, Repr

/-- The empty-cell branch (lines 233-237). -/
def emptyCellData (allArchetypes : List String) (day : String) : CellData :=
  ⟨allArchetypes.indexOf "(empty)", "",
   "<b>" ++ day ++ "</b><br>Free time<br><i>No scheduled activities</i>"⟩

/-- The hover text assembled at lines 251-260, a Python triple-quoted
f-string (hence the indentation and newlines) plus the conditional notes
line. -/
def hoverText (day : String) (ev : Event) : String :=
  let desc := ((greekLookup ev.archetype).map (·.description)).getD ""
  let base := "\n                <b>" ++ day ++ "</b><br>\n                <b>⏰ "
    ++ ev.start ++ " - " ++ ev.«end» ++ "</b><br>\n                📝 <b>"
    ++ ev.title ++ "</b><br>\n                🏛️ <i>" ++ ev.archetype
    ++ "</i><br>\n                📋 " ++ desc ++ "<br>\n                "
  if (pyStrip ev.notes).data.isEmpty then base
  else base ++ "📎 <i>Notes: " ++ ev.notes ++ "</i><br>"

/-- The occupied-cell branch (lines 239-262): category index of the
archetype, symbol plus title truncated to 30 characters, hover text. -/
def eventCellData (allArchetypes : List String) (day : String) (ev : Event) : CellData :=
  let symbol := ((greekLookup ev.archetype).map (·.symbol)).getD ""
  let displayText := if symbol.data.isEmpty then ev.title else symbol ++ " " ++ ev.title
  ⟨allArchetypes.indexOf ev.archetype, ⟨displayText.data.take 30⟩, hoverText day ev⟩

/-- Resolution of one (day, slot) cell, exactly the inner loop body at
lines 220-262. -/
def cellFor (events : List Event) (allArchetypes : List String)
    (day : String) (slot : Int) : CellData :=
  match matchingEvents events day slot with
  | [] => emptyCellData allArchetypes day
  | e :: _ => eventCellData allArchetypes day e

/-- The sorted distinct archetype list of line 211:
sorted(set(unique archetypes + ["(empty)"])) with the Python string order.
Both the Python expression and this embedding produce the unique
lexicographically sorted duplicate-free list of the same set. -/
def allArchetypesOf (events : List Event) : List String :=
  List.insertionSort (fun a b : String => a ≤ b)
    (((events.map (·.archetype)).dedup ++ ["(empty)"]).dedup)

/-- The figure data returned by create_calendar_heatmap: axis labels, the
three cell matrices indexed slot row by day column, and the color scale
stops (index, archetype count, color).  Python computes the stop position
as the float i divided by the count; the pair of naturals keeps that
rational exactly.  Layout attributes (sizes, fonts, margins) belong to the
rendering collaborator and are not modelled. -/
structure Heatmap where
  yLabels : List String
  days : List String
  z : List (List Nat)
  text : Option (List (List String))
  hover : List (List String)
  colorscale : List (Nat × Nat × String)
  title : String
deriving DecidableEq, Repr

/-- Python str.capitalize: first character upper-cased, rest lower-cased
(ASCII model), used for the figure title. -/
def pyCapitalize (s : String) : String :=
  match s.data with
  | [] => ""
  | c :: rest => ⟨(if c.isLower then Char.ofNat (c.toNat - 32) else c) :: rest.map pyLowerChar⟩

/-- Embedding of create_calendar_heatmap.  Returns none exactly when the
dataframe is empty (lines 198-200, the early return after the warning);
otherwise builds the slot list (range(360, 1380, 30)), the y labels, the
distinct archetype index, the z, text and hover matrices via cellFor, and
the color scale.  show_text only toggles whether the text matrix is handed
to the figure (line 279). -/
def create_calendar_heatmap (events : List Event) (days : List String)
    (weekKey : String) (showText : Bool) : Option Heatmap :=
  if events.isEmpty then none
  else
    let slotMinutes := 30
    let startHour := 6
    let endHour := 23
    let slots := pyRange (startHour * 60) (endHour * 60) slotMinutes
    let yLabels := slots.map slotLabel
    let allArchetypes := allArchetypesOf events
    let cells := slots.map (fun m => days.map (fun day => cellFor events allArchetypes day (m : Int)))
    some
      { yLabels := yLabels
        days := days
        z := cells.map (fun row => row.map (·.z))
        text := if showText then some (cells.map (fun row => row.map (·.text))) else none
        hover := cells.map (fun row => row.map (·.hover))
        colorscale := allArchetypes.enum.map
          (fun p => (p.1, allArchetypes.length, ((greekLookup p.2).map (·.color)).getD "#cccccc"))
        title := "📅 " ++ pyCapitalize weekKey ++ " Week Schedule" }

/-- The concrete event exhibiting the C1 failure: a start that parses to
minute offset 0. -/
def midnightEvent : Event :=
  ⟨"Monday", "Sleep", "00:00", "08:00", "HYP – Hypnos", ""⟩

/-- C1, failing input: the claim states that an event whose boundaries both
parse occupies every slot s with start ≤ s < end, and in particular that a
"00:00" start occupies every slot before its end.  The code instead never
lets such an event occupy any slot: both boundaries of midnightEvent parse
(to 0 and 480), the slot 360 satisfies 0 ≤ 360 < 480, yet occupiesSlot is
false at every slot, because the guard at line 230 tests the parsed values
for Python truthiness and the integer 0 is falsy. -/
theorem c1_zero_start_never_occupies :
    (∀ slot : Int, occupiesSlot midnightEvent slot = false) ∧
    parse_time_minutes midnightEvent.start = some 0 ∧
    parse_time_minutes midnightEvent.«end» = some 480 ∧
    ((0 : Int) ≤ 360 ∧ (360 : Int) < 480) := by
  refine ⟨fun slot => rfl, rfl, rfl, by decide, by decide⟩

/-- C10: create_calendar_heatmap returns a grid exactly for nonempty
schedules; an empty dataframe yields none (the early return after the
warning at lines 198-200), never an all-empty-sentinel grid. -/
theorem c10_empty_guard :
    ∀ (events : List Event) (days : List String) (weekKey : String) (showText : Bool),
      (create_calendar_heatmap events days weekKey showText).isSome = !events.isEmpty := by
  intro events days weekKey showText
  unfold create_calendar_heatmap
  cases events <;> simp

/-- The two nested filters of the grid loop compose into one filter by the
combined day-and-occupancy test. -/
theorem matchingEvents_eq_filter (events : List Event) (day : String) (slot : Int) :
    matchingEvents events day slot = events.filter (fun ev => eventMatches ev day slot) := by
  unfold matchingEvents eventMatches
  rw [List.filter_filter]
  congr 1
  funext ev
  exact Bool.and_comm _ _

/-- C2: when the schedule splits as pre ++ e :: rest with no event of pre
matching the (day, slot) cell, e matching it, and at least one further
event of rest also matching it (the two-or-more-overlaps premise), the
grid cell resolves to e, the first matching event in stored row order: the
resolved event is e and the cell data is built from e.  Determinism across
runs is the final conjunct; the embedding is a pure function, so identical
inputs give identical grids definitionally. -/
theorem c2_first_event_wins :
    ∀ (events : List Event) (day : String) (slot : Int)
      (pre : List Event) (e : Event) (rest : List Event)
      (allArchetypes : List String) (days : List String) (weekKey : String) (showText : Bool),
      events = pre ++ e :: rest →
      (∀ x ∈ pre, eventMatches x day slot = false) →
      eventMatches e day slot = true →
      (∃ x ∈ rest, eventMatches x day slot = true) →
      resolvedEvent events day slot = some e ∧
      cellFor events allArchetypes day slot = eventCellData allArchetypes day e ∧
      create_calendar_heatmap events days weekKey showText
        = create_calendar_heatmap events days weekKey showText := by
  intro events day slot pre e rest allArchetypes days weekKey showText hsplit hpre he _hrest
  subst hsplit
  have hfil : matchingEvents (pre ++ e :: rest) day slot
      = e :: rest.filter (fun ev => eventMatches ev day slot) := by
    rw [matchingEvents_eq_filter, List.filter_append]
    have h1 : pre.filter (fun ev => eventMatches ev day slot) = [] := by
      apply List.filter_eq_nil_iff.2
      intro a ha
      simp [hpre a ha]
    rw [h1, List.nil_append, List.filter_cons]
    simp [he]
  refine ⟨?_, ?_, rfl⟩
  · rw [resolvedEvent, hfil]
    rfl
  · rw [cellFor, hfil]

/-- First overlapping event for the C2 witness. -/
def lectureEvent : Event :=
  ⟨"Monday", "Lecture", "08:00", "10:00", "CHR – Chronos", ""⟩

/-- Second overlapping event for the C2 witness. -/
def workshopEvent : Event :=
  ⟨"Monday", "Workshop", "08:30", "09:30", "KAI – Kairos", ""⟩

/-- C2 witness: both concrete events overlap the 08:30 slot of Monday and
the cell resolves to the first of them in stored order. -/
theorem c2_first_event_wins_witness :
    eventMatches lectureEvent "Monday" 510 = true ∧
    eventMatches workshopEvent "Monday" 510 = true ∧
    resolvedEvent [lectureEvent, workshopEvent] "Monday" 510 = some lectureEvent := by
  refine ⟨by decide, by decide, ?_⟩
  exact (c2_first_event_wins [lectureEvent, workshopEvent] "Monday" 510
    [] lectureEvent [workshopEvent] [] [] "" true rfl
    (by intro x hx; simp at hx) (by decide)
    ⟨workshopEvent, by simp, by decide⟩).1

/-! ## Day Ordering: sort_days (calendar.py lines 99-131)

Python sorted() is a stable sort; a stable sort is uniquely determined by
the key function and the input order, so the embedding uses insertion sort
(stable for the reflexive key comparison) and the stability theorems below
state order preservation for equal keys explicitly. -/

/-- The day_order dict literal (lines 101-109), in source order. -/
def day_order : List (String × Nat) :=
  [("monday", 1), ("mon", 1), ("lundi", 1), ("lun", 1),
   ("tuesday", 2), ("tue", 2), ("mardi", 2), ("mar", 2),
   ("wednesday", 3), ("wed", 3), ("mercredi", 3), ("mer", 3),
   ("thursday", 4), ("thu", 4), ("jeudi", 4), ("jeu", 4),
   ("friday", 5), ("fri", 5), ("vendredi", 5), ("ven", 5),
   ("saturday", 6), ("sat", 6), ("samedi", 6), ("sam", 6),
   ("sunday", 7), ("sun", 7), ("dimanche", 7), ("dim", 7)]

/-- Python day_order.get(token, 99). -/
def dayOrderLookup (tok : String) : Nat :=
  ((day_order.find? (fun p => p.1 == tok)).map (·.2)).getD 99

/-- Python str.split() with no separator: split on whitespace runs,
dropping empty pieces.  The accumulator collects the current word in
reverse. -/
def splitWsAux : List Char → List Char → List (List Char)
  | [], acc => if acc.isEmpty then [] else [acc.reverse]
  | c :: rest, acc =>
    if pyIsSpace c then
      if acc.isEmpty then splitWsAux rest [] else acc.reverse :: splitWsAux rest []
    else splitWsAux rest (c :: acc)

/-- Python str.split() with no arguments. -/
def pySplitWs (s : String) : List String :=
  (splitWsAux s.data []).map String.mk

/-- Embedding of get_day_order_key (lines 120-127): 99 for blank input,
otherwise strip, lower-case, split on whitespace, 99 when no token, else
look the first token up in day_order with default 99.  The pd.isna branch
cannot fire for string input. -/
def get_day_order_key (dayStr : String) : Nat :=
  if (stripChars dayStr.data).isEmpty then 99
  else
    match pySplitWs (pyLower (pyStrip dayStr)) with
    | [] => 99
    | p :: _ => dayOrderLookup p

/-- The filter at lines 112-117: keep values whose stripped form is
nonempty and does not lower-case to the "nan" placeholder; pd.notna is
always true for strings.  The original (unstripped) value is kept. -/
def keptDay (d : String) : Bool :=
  !(stripChars d.data).isEmpty && pyLower (pyStrip d) != "nan"

/-- Embedding of sort_days: filter out blank and placeholder labels, then
stable-sort the survivors by get_day_order_key. -/
def sort_days (daysList : List String) : List String :=
  (daysList.filter keptDay).insertionSort
    (fun a b => get_day_order_key a ≤ get_day_order_key b)

/-- Inserting an element whose key differs from v does not change the
key-v sublist. -/
theorem filter_orderedInsert_keyNe {α : Type _} (key : α → Nat) (v : Nat) (b : α)
    (L : List α) (hb : key b ≠ v) :
    (List.orderedInsert (fun a c => key a ≤ key c) b L).filter (fun x => key x == v)
      = L.filter (fun x => key x == v) := by
  induction L with
  | nil => simp [List.orderedInsert, hb]
  | cons x xs ih =>
    rw [List.orderedInsert]
    by_cases h : key b ≤ key x
    · rw [if_pos h]
      simp [List.filter_cons, hb]
    · rw [if_neg h]
      simp only [List.filter_cons, ih]

/-- Inserting an element whose key equals v into a key-sorted list places
it in front of the key-v sublist: later-inserted elements of a key class
go after earlier ones, which is stability. -/
theorem filter_orderedInsert_keyEq {α : Type _} (key : α → Nat) (v : Nat) (b : α)
    (L : List α) (hs : L.Pairwise (fun a c => key a ≤ key c)) (hb : key b = v) :
    (List.orderedInsert (fun a c => key a ≤ key c) b L).filter (fun x => key x == v)
      = b :: L.filter (fun x => key x == v) := by
  induction L with
  | nil => simp [List.orderedInsert, hb]
  | cons x xs ih =>
    rw [List.orderedInsert]
    by_cases h : key b ≤ key x
    · rw [if_pos h]
      simp [List.filter_cons, hb]
    · rw [if_neg h]
      have hx : ¬ (key x = v) := by omega
      have hs' := (List.pairwise_cons.1 hs).2
      simp [List.filter_cons, hx, ih hs']

/-- Stability of the key-based insertion sort: for every key value, the
sublist of elements with that key is unchanged, so elements of equal key
keep their original relative order. -/
theorem filter_insertionSort_key {α : Type _} (key : α → Nat) (v : Nat) (l : List α) :
    (l.insertionSort (fun a c => key a ≤ key c)).filter (fun x => key x == v)
      = l.filter (fun x => key x == v) := by
  haveI : IsTotal α (fun a c => key a ≤ key c) := ⟨fun a c => Nat.le_total _ _⟩
  haveI : IsTrans α (fun a c => key a ≤ key c) := ⟨fun a b c => Nat.le_trans⟩
  induction l with
  | nil => rfl
  | cons b l ih =>
    rw [List.insertionSort]
    have hs : (l.insertionSort (fun a c => key a ≤ key c)).Pairwise
        (fun a c => key a ≤ key c) :=
      List.sorted_insertionSort _ l
    by_cases hb : key b = v
    · rw [filter_orderedInsert_keyEq key v b _ hs hb, ih]
      simp [List.filter_cons, hb]
    · rw [filter_orderedInsert_keyNe key v b _ hb, ih]
      simp [List.filter_cons, hb]

/-- C6: for every label list, sort_days keeps exactly the labels that are
neither blank nor the "nan" placeholder, orders them by the weekday rank
of the lower-cased first whitespace token (unmapped tokens rank 99 and are
retained), the sort is stable (for every rank value the equal-rank labels
appear in their original relative order), and the concrete example of the
specification evaluates as stated, with input casing preserved. -/
theorem c6_sort_days :
    (∀ l : List String,
      (sort_days l).Pairwise (fun a b => get_day_order_key a ≤ get_day_order_key b) ∧
      List.Perm (sort_days l) (l.filter keptDay) ∧
      (∀ v : Nat, (sort_days l).filter (fun d => get_day_order_key d == v)
          = (l.filter keptDay).filter (fun d => get_day_order_key d == v))) ∧
    sort_days ["Friday", "monday", "Tue 2024-01-02"]
      = ["monday", "Tue 2024-01-02", "Friday"] := by
  constructor
  · intro l
    haveI : IsTotal String (fun a b => get_day_order_key a ≤ get_day_order_key b) :=
      ⟨fun a c => Nat.le_total _ _⟩
    haveI : IsTrans String (fun a b => get_day_order_key a ≤ get_day_order_key b) :=
      ⟨fun a b c => Nat.le_trans⟩
    refine ⟨List.sorted_insertionSort _ _, List.perm_insertionSort _ _, ?_⟩
    intro v
    exact filter_insertionSort_key get_day_order_key v (l.filter keptDay)
  · decide

/-! ## Export Table Builder: create_excel_export (calendar.py lines 331-371)

Only the data rows written from row 4 on are modelled; the sheet title,
bold fonts and the header row are static content for the spreadsheet
backend.  Cells the source leaves unwritten read back as empty; they are
modelled as empty strings. -/

/-- One exported data row: Day, Time, Activity, Archetype, Notes. -/
structure ExportRow where
  day : String
  time : String
  activity : String
  archetype : String
  notes : String
deriving DecidableEq, Repr

/-- The placeholder row for a day with no events (lines 354-355): only the
Day and Activity cells are written. -/
def free_time_row (day : String) : ExportRow :=
  ⟨day, "", "Free time", "", ""⟩

/-- One row per event (lines 359-364): day, combined start-end range,
title, archetype key, notes.  pd.notna is always true for the string
cells of a normalized dataframe, so the Notes cell is always written.
The raw start and end strings are copied without parsing. -/
def event_row (day : String) (ev : Event) : ExportRow :=
  ⟨day, ev.start ++ "-" ++ ev.«end», ev.title, ev.archetype, ev.notes⟩

/-- The day filter of line 351, identical to the grid filter. -/
def eventsForDay (events : List Event) (day : String) : List Event :=
  events.filter (fun ev => dayMatch ev day)

/-- Embedding of the export loop (lines 348-365): iterate over the days in
the order given, appending either the single placeholder row or one row
per matching event in schedule-stored order.  The accumulator mirrors the
running row counter of the worksheet. -/
def create_excel_export (events : List Event) (days : List String) : List ExportRow :=
  days.foldl
    (fun acc day =>
      let dayEvents := eventsForDay events day
      if dayEvents.isEmpty then acc ++ [free_time_row day]
      else acc ++ dayEvents.map (event_row day))
    []

/-- The rows of one day as the specification words them: exactly one
"Free time" placeholder row when the day has zero matching events,
otherwise exactly one row per matching event in stored order. -/
def exportDayRowsSpec (events : List Event) (day : String) : List ExportRow :=
  if (eventsForDay events day).isEmpty then [free_time_row day]
  else (eventsForDay events day).map (event_row day)

/-- The exported loop body agrees with appending the per-day spec rows. -/
theorem excel_export_foldl (events : List Event) :
    ∀ (days : List String) (acc : List ExportRow),
      days.foldl
        (fun acc day =>
          let dayEvents := eventsForDay events day
          if dayEvents.isEmpty then acc ++ [free_time_row day]
          else acc ++ dayEvents.map (event_row day))
        acc
      = acc ++ (days.map (exportDayRowsSpec events)).flatten := by
  intro days
  induction days with
  | nil => intro acc; simp
  | cons day rest ih =>
    intro acc
    rw [List.foldl_cons, ih, List.map_cons]
    unfold exportDayRowsSpec
    by_cases h : (eventsForDay events day).isEmpty
    · rw [if_pos h, if_pos h, List.flatten_cons, List.append_assoc]
    · rw [if_neg h, if_neg h, List.flatten_cons, List.append_assoc]

/-- An event with an unparsable start boundary, for the C7 inclusion
conjunct. -/
def unparsableEvent : Event :=
  ⟨"Monday", "Yoga", "TBD", "09:00", "CHR – Chronos", ""⟩

/-- C7: the export table is the concatenation, over the days in the order
given, of the per-day rows; a day with zero matching events contributes
exactly one "Free time" placeholder row, and a day with events contributes
exactly one row per matching event in schedule-stored order, carrying day,
"start-end" range, title, archetype key and notes.  The final conjuncts
show parseability is never consulted: an event whose start does not parse
is still exported. -/
theorem c7_export_rows :
    (∀ (events : List Event) (days : List String),
      create_excel_export events days = (days.map (exportDayRowsSpec events)).flatten) ∧
    (∀ (events : List Event) (day : String),
      (eventsForDay events day).isEmpty = true →
      exportDayRowsSpec events day = [free_time_row day]) ∧
    (∀ (events : List Event) (day : String),
      (eventsForDay events day).isEmpty = false →
      exportDayRowsSpec events day = (eventsForDay events day).map (event_row day)) ∧
    parse_time_minutes unparsableEvent.start = none ∧
    create_excel_export [unparsableEvent] ["Monday"]
      = [⟨"Monday", "TBD-09:00", "Yoga", "CHR – Chronos", ""⟩] := by
  refine ⟨?_, ?_, ?_, rfl, by decide⟩
  · intro events days
    rw [create_excel_export, excel_export_foldl, List.nil_append]
  · intro events day h
    unfold exportDayRowsSpec
    rw [if_pos h]
  · intro events day h
    unfold exportDayRowsSpec
    rw [if_neg (by simp [h])]

/-! ## Record Normalizer: normalize_dataframe (calendar.py lines 147-194)

A pandas dataframe is modelled as an ordered list of named columns plus a
row count; a cell is missing (NaN), a string, or a number (integer model;
no claim involves float cells).  pandas facts used by the embedding, each
noted where it matters: df.rename does not merge columns, it relabels them
in place and tolerates resulting duplicate labels; selecting a duplicated
label returns a two-column frame whose .str accessor raises
AttributeError; df.columns iterates labels in order.  The file_name
parameter of the source only feeds the sidebar diagnostics and does not
affect the returned frame, so it is dropped. -/

/-- One raw cell value. -/
inductive Cell where
  | null : Cell
  | str : String → Cell
  | int : Int → Cell
deriving DecidableEq, Repr

/-- One named dataframe column. -/
structure Col where
  name : String
  cells : List Cell
deriving DecidableEq, Repr

/-- A dataframe: row count plus ordered columns. -/
structure Df where
  nrows : Nat
  cols : List Col
deriving DecidableEq, Repr

/-- Rectangularity: every column holds one cell per row. -/
def Df.WF (d : Df) : Prop :=
  ∀ c ∈ d.cols, c.cells.length = d.nrows

/-- The ordered column labels. -/
def dfNames (d : Df) : List String :=
  d.cols.map (·.name)

/-- Python substring test (the "in" operator on str). -/
def isInfixList (n : List Char) : List Char → Bool
  | [] => n.isEmpty
  | c :: rest => List.isPrefixOf n (c :: rest) || isInfixList n rest

/-- Python needle in hay for strings. -/
def containsSub (needle hay : String) : Bool :=
  isInfixList needle.data hay.data

/-- The classification chain of lines 158-170, applied to the stripped,
lower-cased label (col_str and col_lower of the source): first matching
canonical field wins, none when no keyword set matches. -/
def classifyLower (colLower : String) : Option String :=
  if containsSub "date" colLower || colLower == "day" then some "day"
  else if containsSub "activity" colLower || containsSub "title" colLower then some "title"
  else if containsSub "start" colLower then some "start"
  else if containsSub "end" colLower then some "end"
  else if containsSub "archetype" colLower then some "archetype"
  else if containsSub "note" colLower || containsSub "detail" colLower
    || containsSub "exam" colLower then some "notes"
  else none

/-- Classification of one column label: strip, lower-case, run the chain
(lines 154-170). -/
def classify (col : String) : Option String :=
  classifyLower (pyLower (pyStrip col))

/-- One keyword rule of the specification: a label predicate and the
canonical field it selects. -/
structure ColumnRule where
  matchesLabel : String → Bool
  field : String

/-- The ordered rule list exactly as the specification words it: day iff
the label contains "date" or equals "day"; title iff it contains
"activity" or "title"; start iff it contains "start"; end iff it contains
"end"; archetype iff it contains "archetype"; notes iff it contains
"note", "detail" or "exam". -/
def columnRules : List ColumnRule :=
  [⟨fun l => containsSub "date" l || l == "day", "day"⟩,
   ⟨fun l => containsSub "activity" l || containsSub "title" l, "title"⟩,
   ⟨fun l => containsSub "start" l, "start"⟩,
   ⟨fun l => containsSub "end" l, "end"⟩,
   ⟨fun l => containsSub "archetype" l, "archetype"⟩,
   ⟨fun l => containsSub "note" l || containsSub "detail" l || containsSub "exam" l, "notes"⟩]

/-- The claim-side classifier: the FIRST rule in priority order whose
keyword set matches the case-normalized label decides the field; at most
one field is assigned because find? returns at most one rule. -/
def classifySpec (label : String) : Option String :=
  ((columnRules.find? (fun r => r.matchesLabel (pyLower (pyStrip label)))).map (·.field))

/-- The classification chain agrees with first-match over the ordered rule
list for every already-normalized label. -/
theorem classifyLower_eq_spec (X : String) :
    classifyLower X = ((columnRules.find? (fun r => r.matchesLabel X)).map (·.field)) := by
  unfold classifyLower columnRules
  cases h1 : containsSub "date" X || X == "day" <;>
    cases h2 : containsSub "activity" X || containsSub "title" X <;>
      cases h3 : containsSub "start" X <;>
        cases h4 : containsSub "end" X <;>
          cases h5 : containsSub "archetype" X <;>
            cases h6 : containsSub "note" X || containsSub "detail" X
              || containsSub "exam" X <;>
              simp [List.find?, h1, h2, h3, h4, h5, h6]

/-- C5: classify assigns every input column label to at most one canonical
field, namely the first field in the priority order day, title, start,
end, archetype, notes whose case-insensitive keyword rule matches the
(stripped, lower-cased) label; the keyword sets are exactly those of the
claim. -/
theorem c5_column_classification :
    ∀ label : String, classify label = classifySpec label := by
  intro label
  unfold classify classifySpec
  exact classifyLower_eq_spec (pyLower (pyStrip label))

/-- Rename of one label (the df.rename application of line 173): mapped
labels take their canonical name, unmapped labels are kept unchanged. -/
def renameLabel (l : String) : String :=
  (classify l).getD l

/-- df.rename(columns=column_mapping): relabel in place, keep order and
cells, tolerate duplicate resulting labels. -/
def renameCols (d : Df) : Df :=
  ⟨d.nrows, d.cols.map (fun c => ⟨renameLabel c.name, c.cells⟩)⟩

/-- One step of the required-columns loop (lines 176-184): if the name is
absent, append a column of the scalar default broadcast to every row. -/
def addMissing (d : Df) (nm : String) (dflt : Cell) : Df :=
  if nm ∈ dfNames d then d
  else ⟨d.nrows, d.cols ++ [⟨nm, List.replicate d.nrows dflt⟩]⟩

/-- The six synthesized defaults in source order: day, title, start, end
empty, archetype the Chronos key, notes empty. -/
def addDefaults (d : Df) : Df :=
  addMissing
    (addMissing
      (addMissing
        (addMissing
          (addMissing
            (addMissing d "day" (Cell.str ""))
            "title" (Cell.str ""))
          "start" (Cell.str ""))
        "end" (Cell.str ""))
      "archetype" (Cell.str "CHR – Chronos"))
    "notes" (Cell.str "")

/-- The per-cell cleaning of line 188: fillna("") then astype(str) then
str.strip().  A missing value becomes the empty string, a string is
stripped, a number is stringified then stripped. -/
def cleanCell : Cell → Cell
  | Cell.null => Cell.str ""
  | Cell.str s => Cell.str (pyStrip s)
  | Cell.int n => Cell.str (pyStrip (toString n))

/-- Cleaning one column. -/
def cleanCol (c : Col) : Col :=
  ⟨c.name, c.cells.map cleanCell⟩

/-- The message of the AttributeError that line 188 raises when a label is
duplicated: df[col] is then a two-column frame with no .str accessor. -/
def dupErrorMsg : String :=
  "AttributeError: DataFrame object has no attribute str"

/-- The cleaning loop of lines 187-188: iterate the labels in order; on the
first duplicated label df[col] returns a DataFrame and .str raises, so the
loop succeeds exactly when the labels are duplicate-free, in which case
every column is cleaned in place. -/
def cleanCols (d : Df) : Except String Df :=
  if (dfNames d).Nodup then Except.ok ⟨d.nrows, d.cols.map cleanCol⟩
  else Except.error dupErrorMsg

/-- Embedding of normalize_dataframe: rename by classification, synthesize
missing canonical columns, clean every cell.  df.copy() makes the whole
function pure, matching this functional embedding. -/
def normalize_dataframe (d : Df) : Except String Df :=
  cleanCols (addDefaults (renameCols d))

/-! ### Idempotence of stripping (for the trimmed-fields conjunct of C4) -/

/-- Dropping while p twice equals dropping once. -/
theorem dropWhile_dropWhile (p : Char → Bool) :
    ∀ l : List Char, (l.dropWhile p).dropWhile p = l.dropWhile p := by
  intro l
  induction l with
  | nil => rfl
  | cons a as ih =>
    rw [List.dropWhile_cons]
    by_cases h : p a = true
    · rw [if_pos h]
      exact ih
    · rw [if_neg h, List.dropWhile_cons, if_neg h]

/-- A list that survives dropWhile unchanged has no dropped prefix of any
of its prefixes either. -/
theorem dropWhile_eq_self_of_prefix (p : Char → Bool) (m pre t : List Char)
    (hm : m.dropWhile p = m) (hsplit : pre ++ t = m) :
    pre.dropWhile p = pre := by
  cases pre with
  | nil => rfl
  | cons a pre2 =>
    rw [List.dropWhile_cons]
    by_cases h : p a = true
    · exfalso
      have hm2 : m = a :: (pre2 ++ t) := by rw [← hsplit]; rfl
      have : m.dropWhile p = (pre2 ++ t).dropWhile p := by
        rw [hm2, List.dropWhile_cons, if_pos h]
      have hsfx : (pre2 ++ t).dropWhile p <:+ pre2 ++ t := List.dropWhile_suffix p
      have hlen := hsfx.sublist.length_le
      rw [hm] at this
      have : m.length = ((pre2 ++ t).dropWhile p).length := by rw [this]
      rw [hm2] at this
      simp only [List.length_cons] at this
      omega
    · rw [if_neg h]

/-- dropTrailWs yields a prefix of its argument. -/
theorem dropTrailWs_prefix (l : List Char) : ∃ t, dropTrailWs l ++ t = l := by
  unfold dropTrailWs
  have hs : l.reverse.dropWhile pyIsSpace <:+ l.reverse := List.dropWhile_suffix pyIsSpace
  obtain ⟨u, hu⟩ := hs
  refine ⟨u.reverse, ?_⟩
  have := congrArg List.reverse hu
  rw [List.reverse_append, List.reverse_reverse] at this
  exact this

/-- dropTrailWs is idempotent. -/
theorem dropTrailWs_dropTrailWs (l : List Char) :
    dropTrailWs (dropTrailWs l) = dropTrailWs l := by
  unfold dropTrailWs
  rw [List.reverse_reverse, dropWhile_dropWhile]

/-- Stripping is idempotent. -/
theorem stripChars_stripChars (l : List Char) :
    stripChars (stripChars l) = stripChars l := by
  unfold stripChars
  have h1 : (l.dropWhile pyIsSpace).dropWhile pyIsSpace = l.dropWhile pyIsSpace :=
    dropWhile_dropWhile pyIsSpace l
  obtain ⟨t, ht⟩ := dropTrailWs_prefix (l.dropWhile pyIsSpace)
  have h2 : (dropTrailWs (l.dropWhile pyIsSpace)).dropWhile pyIsSpace
      = dropTrailWs (l.dropWhile pyIsSpace) :=
    dropWhile_eq_self_of_prefix pyIsSpace (l.dropWhile pyIsSpace) _ t h1 ht
  rw [h2, dropTrailWs_dropTrailWs]

/-- String-level idempotence of Python strip. -/
theorem pyStrip_pyStrip (s : String) : pyStrip (pyStrip s) = pyStrip s := by
  unfold pyStrip
  exact congrArg String.mk (stripChars_stripChars s.data)

/-- Every cleaned cell is a stripped string. -/
theorem cleanCell_trimmed (y : Cell) :
    ∃ s, cleanCell y = Cell.str s ∧ pyStrip s = s := by
  cases y with
  | null => exact ⟨"", rfl, rfl⟩
  | str t => exact ⟨pyStrip t, rfl, pyStrip_pyStrip t⟩
  | int n => exact ⟨pyStrip (toString n), rfl, pyStrip_pyStrip (toString n)⟩

/-! ### Stage lemmas for the normalizer -/

/-- The six canonical field names. -/
def canonicalNames : List String :=
  ["day", "title", "start", "end", "archetype", "notes"]

/-- The synthesized default value of each canonical field. -/
def defaultCellFor (f : String) : Cell :=
  if f == "archetype" then Cell.str "CHR – Chronos" else Cell.str ""

/-- Column lookup by name, first match. -/
def findCol (d : Df) (f : String) : Option Col :=
  d.cols.find? (fun c => c.name == f)

/-- A label renaming to a canonical name was classified to it: unmapped
labels keep their own name, and every literal canonical name classifies to
a canonical field itself, so no unmapped label can collide. -/
theorem renameLabel_canon (l f : String) (hf : f ∈ canonicalNames)
    (h : renameLabel l = f) : classify l = some f := by
  unfold renameLabel at h
  cases hcl : classify l with
  | some g => rw [hcl] at h; simp at h; rw [h]
  | none =>
    exfalso
    rw [hcl] at h
    simp at h
    rw [h] at hcl
    have hc : ∀ g ∈ canonicalNames, classify g ≠ none := by decide
    exact hc f hf hcl

theorem renameCols_nrows (d : Df) : (renameCols d).nrows = d.nrows := rfl

@[simp] theorem addMissing_nrows (d : Df) (nm : String) (c : Cell) :
    (addMissing d nm c).nrows = d.nrows := by
  unfold addMissing
  split <;> rfl

theorem addDefaults_nrows (d : Df) : (addDefaults d).nrows = d.nrows := by
  unfold addDefaults
  simp

theorem dfNames_renameCols (d : Df) :
    dfNames (renameCols d) = d.cols.map (fun c => renameLabel c.name) := by
  unfold dfNames renameCols
  rw [List.map_map]
  rfl

theorem addMissing_cols_present (d : Df) (nm : String) (c : Cell)
    (h : nm ∈ dfNames d) : (addMissing d nm c).cols = d.cols := by
  unfold addMissing
  rw [if_pos h]

theorem addMissing_cols_absent (d : Df) (nm : String) (c : Cell)
    (h : nm ∉ dfNames d) :
    (addMissing d nm c).cols = d.cols ++ [⟨nm, List.replicate d.nrows c⟩] := by
  unfold addMissing
  rw [if_neg h]

theorem addMissing_cols_prefix (d : Df) (nm : String) (c : Cell) :
    ∃ e, (addMissing d nm c).cols = d.cols ++ e := by
  by_cases h : nm ∈ dfNames d
  · exact ⟨[], by rw [addMissing_cols_present d nm c h, List.append_nil]⟩
  · exact ⟨_, addMissing_cols_absent d nm c h⟩

theorem mem_cols_addMissing (d : Df) (nm : String) (c : Cell) (col : Col)
    (h : col ∈ d.cols) : col ∈ (addMissing d nm c).cols := by
  obtain ⟨e, he⟩ := addMissing_cols_prefix d nm c
  rw [he]
  exact List.mem_append_left _ h

theorem mem_dfNames_addMissing_self (d : Df) (nm : String) (c : Cell) :
    nm ∈ dfNames (addMissing d nm c) := by
  by_cases h : nm ∈ dfNames d
  · unfold dfNames
    rw [addMissing_cols_present d nm c h]
    exact h
  · unfold dfNames
    rw [addMissing_cols_absent d nm c h, List.map_append]
    exact List.mem_append_right _ (by simp)

theorem mem_dfNames_addMissing_mono (d : Df) (nm : String) (c : Cell) (x : String)
    (h : x ∈ dfNames d) : x ∈ dfNames (addMissing d nm c) := by
  obtain ⟨e, he⟩ := addMissing_cols_prefix d nm c
  unfold dfNames at h ⊢
  rw [he, List.map_append]
  exact List.mem_append_left _ h

theorem not_mem_dfNames_addMissing (d : Df) (nm : String) (c : Cell) (x : String)
    (hx : x ∉ dfNames d) (hne : x ≠ nm) : x ∉ dfNames (addMissing d nm c) := by
  by_cases h : nm ∈ dfNames d
  · unfold dfNames
    rw [addMissing_cols_present d nm c h]
    exact hx
  · unfold dfNames
    rw [addMissing_cols_absent d nm c h, List.map_append]
    intro hmem
    rcases List.mem_append.1 hmem with h1 | h2
    · exact hx h1
    · simp at h2
      exact hne h2

theorem WF_renameCols (d : Df) (h : d.WF) : (renameCols d).WF := by
  intro c hc
  unfold renameCols at hc
  simp only [List.mem_map] at hc
  obtain ⟨c0, hc0, rfl⟩ := hc
  exact h c0 hc0

theorem WF_addMissing (d : Df) (nm : String) (cc : Cell) (h : d.WF) :
    (addMissing d nm cc).WF := by
  intro c hc
  rw [addMissing_nrows]
  by_cases hm : nm ∈ dfNames d
  · rw [addMissing_cols_present d nm cc hm] at hc
    exact h c hc
  · rw [addMissing_cols_absent d nm cc hm] at hc
    rcases List.mem_append.1 hc with h1 | h2
    · exact h c h1
    · simp at h2
      rw [h2]
      exact List.length_replicate _ _

theorem WF_addDefaults (d : Df) (h : d.WF) : (addDefaults d).WF := by
  unfold addDefaults
  exact WF_addMissing _ _ _ (WF_addMissing _ _ _ (WF_addMissing _ _ _
    (WF_addMissing _ _ _ (WF_addMissing _ _ _ (WF_addMissing _ _ _ h)))))

theorem addDefaults_cols_prefix (d : Df) :
    ∃ ext, (addDefaults d).cols = d.cols ++ ext := by
  unfold addDefaults
  obtain ⟨e1, h1⟩ := addMissing_cols_prefix d "day" (Cell.str "")
  obtain ⟨e2, h2⟩ := addMissing_cols_prefix _ "title" (Cell.str "")
  obtain ⟨e3, h3⟩ := addMissing_cols_prefix _ "start" (Cell.str "")
  obtain ⟨e4, h4⟩ := addMissing_cols_prefix _ "end" (Cell.str "")
  obtain ⟨e5, h5⟩ := addMissing_cols_prefix _ "archetype" (Cell.str "CHR – Chronos")
  obtain ⟨e6, h6⟩ := addMissing_cols_prefix _ "notes" (Cell.str "")
  refine ⟨e1 ++ e2 ++ e3 ++ e4 ++ e5 ++ e6, ?_⟩
  rw [h6, h5, h4, h3, h2, h1]
  simp [List.append_assoc]

theorem dfNames_addDefaults_prefix (d : Df) :
    ∃ ext, dfNames (addDefaults d) = dfNames d ++ ext := by
  obtain ⟨e, he⟩ := addDefaults_cols_prefix d
  exact ⟨e.map (·.name), by unfold dfNames; rw [he, List.map_append]⟩

/-- The six canonical names are all present after addDefaults. -/
theorem canonical_mem_addDefaults (d : Df) (f : String) (hf : f ∈ canonicalNames) :
    f ∈ dfNames (addDefaults d) := by
  unfold addDefaults
  have hf6 : f = "day" ∨ f = "title" ∨ f = "start" ∨ f = "end" ∨ f = "archetype"
      ∨ f = "notes" := by
    simpa [canonicalNames] using hf
  rcases hf6 with rfl | rfl | rfl | rfl | rfl | rfl
  · exact mem_dfNames_addMissing_mono _ _ _ _ (mem_dfNames_addMissing_mono _ _ _ _
      (mem_dfNames_addMissing_mono _ _ _ _ (mem_dfNames_addMissing_mono _ _ _ _
        (mem_dfNames_addMissing_mono _ _ _ _ (mem_dfNames_addMissing_self _ _ _)))))
  · exact mem_dfNames_addMissing_mono _ _ _ _ (mem_dfNames_addMissing_mono _ _ _ _
      (mem_dfNames_addMissing_mono _ _ _ _ (mem_dfNames_addMissing_mono _ _ _ _
        (mem_dfNames_addMissing_self _ _ _))))
  · exact mem_dfNames_addMissing_mono _ _ _ _ (mem_dfNames_addMissing_mono _ _ _ _
      (mem_dfNames_addMissing_mono _ _ _ _ (mem_dfNames_addMissing_self _ _ _)))
  · exact mem_dfNames_addMissing_mono _ _ _ _ (mem_dfNames_addMissing_mono _ _ _ _
      (mem_dfNames_addMissing_self _ _ _))
  · exact mem_dfNames_addMissing_mono _ _ _ _ (mem_dfNames_addMissing_self _ _ _)
  · exact mem_dfNames_addMissing_self _ _ _

/-- When a canonical name is absent, addDefaults appends exactly its
default column. -/
theorem addDefaults_default_mem (d : Df) (f : String) (hf : f ∈ canonicalNames)
    (habs : f ∉ dfNames d) :
    Col.mk f (List.replicate d.nrows (defaultCellFor f)) ∈ (addDefaults d).cols := by
  unfold addDefaults
  have hf6 : f = "day" ∨ f = "title" ∨ f = "start" ∨ f = "end" ∨ f = "archetype"
      ∨ f = "notes" := by
    simpa [canonicalNames] using hf
  rcases hf6 with rfl | rfl | rfl | rfl | rfl | rfl
  · have h1 : Col.mk "day" (List.replicate d.nrows (Cell.str ""))
        ∈ (addMissing d "day" (Cell.str "")).cols := by
      rw [addMissing_cols_absent d _ _ habs]
      exact List.mem_append_right _ (by simp)
    exact mem_cols_addMissing _ _ _ _ (mem_cols_addMissing _ _ _ _
      (mem_cols_addMissing _ _ _ _ (mem_cols_addMissing _ _ _ _
        (mem_cols_addMissing _ _ _ _ h1))))
  · have habs1 : "title" ∉ dfNames (addMissing d "day" (Cell.str "")) :=
      not_mem_dfNames_addMissing _ _ _ _ habs (by decide)
    have h1 : Col.mk "title" (List.replicate d.nrows (Cell.str ""))
        ∈ (addMissing (addMissing d "day" (Cell.str "")) "title" (Cell.str "")).cols := by
      rw [addMissing_cols_absent _ _ _ habs1, addMissing_nrows]
      exact List.mem_append_right _ (by simp)
    exact mem_cols_addMissing _ _ _ _ (mem_cols_addMissing _ _ _ _
      (mem_cols_addMissing _ _ _ _ (mem_cols_addMissing _ _ _ _ h1)))
  · have habs1 : "start" ∉ dfNames (addMissing (addMissing d "day" (Cell.str ""))
        "title" (Cell.str "")) :=
      not_mem_dfNames_addMissing _ _ _ _
        (not_mem_dfNames_addMissing _ _ _ _ habs (by decide)) (by decide)
    have h1 : Col.mk "start" (List.replicate d.nrows (Cell.str ""))
        ∈ (addMissing (addMissing (addMissing d "day" (Cell.str "")) "title" (Cell.str ""))
            "start" (Cell.str "")).cols := by
      rw [addMissing_cols_absent _ _ _ habs1, addMissing_nrows, addMissing_nrows]
      exact List.mem_append_right _ (by simp)
    exact mem_cols_addMissing _ _ _ _ (mem_cols_addMissing _ _ _ _
      (mem_cols_addMissing _ _ _ _ h1))
  · have habs1 : "end" ∉ dfNames (addMissing (addMissing (addMissing d "day"
        (Cell.str "")) "title" (Cell.str "")) "start" (Cell.str "")) :=
      not_mem_dfNames_addMissing _ _ _ _ (not_mem_dfNames_addMissing _ _ _ _
        (not_mem_dfNames_addMissing _ _ _ _ habs (by decide)) (by decide)) (by decide)
    have h1 : Col.mk "end" (List.replicate d.nrows (Cell.str ""))
        ∈ (addMissing (addMissing (addMissing (addMissing d "day" (Cell.str ""))
            "title" (Cell.str "")) "start" (Cell.str "")) "end" (Cell.str "")).cols := by
      rw [addMissing_cols_absent _ _ _ habs1, addMissing_nrows, addMissing_nrows,
        addMissing_nrows]
      exact List.mem_append_right _ (by simp)
    exact mem_cols_addMissing _ _ _ _ (mem_cols_addMissing _ _ _ _ h1)
  · have habs1 : "archetype" ∉ dfNames (addMissing (addMissing (addMissing (addMissing d
        "day" (Cell.str "")) "title" (Cell.str "")) "start" (Cell.str ""))
        "end" (Cell.str "")) :=
      not_mem_dfNames_addMissing _ _ _ _ (not_mem_dfNames_addMissing _ _ _ _
        (not_mem_dfNames_addMissing _ _ _ _ (not_mem_dfNames_addMissing _ _ _ _ habs
          (by decide)) (by decide)) (by decide)) (by decide)
    have h1 : Col.mk "archetype" (List.replicate d.nrows (Cell.str "CHR – Chronos"))
        ∈ (addMissing (addMissing (addMissing (addMissing (addMissing d "day"
            (Cell.str "")) "title" (Cell.str "")) "start" (Cell.str ""))
            "end" (Cell.str "")) "archetype" (Cell.str "CHR – Chronos")).cols := by
      rw [addMissing_cols_absent _ _ _ habs1, addMissing_nrows, addMissing_nrows,
        addMissing_nrows, addMissing_nrows]
      exact List.mem_append_right _ (by simp)
    exact mem_cols_addMissing _ _ _ _ h1
  · have habs1 : "notes" ∉ dfNames (addMissing (addMissing (addMissing (addMissing
        (addMissing d "day" (Cell.str "")) "title" (Cell.str "")) "start" (Cell.str ""))
        "end" (Cell.str "")) "archetype" (Cell.str "CHR – Chronos")) :=
      not_mem_dfNames_addMissing _ _ _ _ (not_mem_dfNames_addMissing _ _ _ _
        (not_mem_dfNames_addMissing _ _ _ _ (not_mem_dfNames_addMissing _ _ _ _
          (not_mem_dfNames_addMissing _ _ _ _ habs (by decide)) (by decide)) (by decide))
        (by decide)) (by decide)
    rw [addMissing_cols_absent _ _ _ habs1, addMissing_nrows, addMissing_nrows,
      addMissing_nrows, addMissing_nrows, addMissing_nrows]
    exact List.mem_append_right _ (by simp [defaultCellFor])

/-- With duplicate-free labels, find? by a name returns the unique column
carrying it. -/
theorem find?_name_of_nodup (cols : List Col) (f : String) (c0 : Col)
    (hnd : (cols.map (·.name)).Nodup) (hmem : c0 ∈ cols) (hname : c0.name = f) :
    cols.find? (fun c => c.name == f) = some c0 := by
  induction cols with
  | nil => cases hmem
  | cons c cs ih =>
    simp only [List.map_cons] at hnd
    have hnd2 : (cs.map (·.name)).Nodup := (List.nodup_cons.1 hnd).2
    have hhead : c.name ∉ cs.map (·.name) := (List.nodup_cons.1 hnd).1
    by_cases hc : c.name = f
    · rcases List.mem_cons.1 hmem with rfl | hmem2
      · exact List.find?_cons_of_pos cs (by simp [hc])
      · exfalso
        apply hhead
        rw [hc, ← hname]
        exact List.mem_map_of_mem _ hmem2
    · have hstep : List.find? (fun c2 => c2.name == f) (c :: cs)
          = List.find? (fun c2 => c2.name == f) cs :=
        List.find?_cons_of_neg cs (by simp [hc])
      rw [hstep]
      rcases List.mem_cons.1 hmem with rfl | hmem2
      · exact absurd hname hc
      · exact ih hnd2 hmem2

/-- With duplicate-free labels, a present name is carried by exactly one
column. -/
theorem filter_name_length_one (cols : List Col) (f : String)
    (hnd : (cols.map (·.name)).Nodup) (hex : ∃ c0 ∈ cols, c0.name = f) :
    (cols.filter (fun c => c.name == f)).length = 1 := by
  induction cols with
  | nil =>
    obtain ⟨c0, h, _⟩ := hex
    cases h
  | cons c cs ih =>
    simp only [List.map_cons] at hnd
    have hnd2 : (cs.map (·.name)).Nodup := (List.nodup_cons.1 hnd).2
    have hhead : c.name ∉ cs.map (·.name) := (List.nodup_cons.1 hnd).1
    rw [List.filter_cons]
    by_cases hc : c.name = f
    · rw [if_pos (by simp [hc])]
      have hnil : cs.filter (fun c2 => c2.name == f) = [] := by
        apply List.filter_eq_nil_iff.2
        intro a ha
        simp only [beq_iff_eq]
        intro haf
        apply hhead
        rw [hc, ← haf]
        exact List.mem_map_of_mem _ ha
      rw [hnil]
      rfl
    · rw [if_neg (by simp [hc])]
      apply ih hnd2
      obtain ⟨c0, hmem, hname⟩ := hex
      rcases List.mem_cons.1 hmem with rfl | h2
      · exact absurd hname hc
      · exact ⟨c0, h2, hname⟩

/-- Cleaning preserves the label list. -/
theorem dfNames_map_cleanCol (cols : List Col) :
    (cols.map cleanCol).map (·.name) = cols.map (·.name) := by
  rw [List.map_map]
  rfl

/-- The synthesized defaults are already clean. -/
theorem cleanCell_defaultCellFor (f : String) :
    cleanCell (defaultCellFor f) = defaultCellFor f := by
  unfold defaultCellFor
  split
  · decide
  · decide

/-- What normalize_dataframe guarantees on success, matching C4: row count
preserved; rectangular output; each of the six canonical fields carried by
exactly one column; every cell a trimmed string, never missing; each
canonical field absent from the input synthesized to its default (empty
string, Chronos key for archetype) on every row; and the input columns
surviving in position and order, renamed and cell-wise cleaned, so output
row order equals input row order. -/
def normalizeConclusion (d out : Df) : Prop :=
  out.nrows = d.nrows ∧
  out.WF ∧
  (∀ f ∈ canonicalNames, (out.cols.filter (fun c => c.name == f)).length = 1) ∧
  (∀ c ∈ out.cols, ∀ x ∈ c.cells, ∃ s, x = Cell.str s ∧ pyStrip s = s) ∧
  (∀ f ∈ canonicalNames, (∀ c ∈ d.cols, classify c.name ≠ some f) →
    findCol out f = some ⟨f, List.replicate d.nrows (defaultCellFor f)⟩) ∧
  out.cols.take d.cols.length
    = d.cols.map (fun c => ⟨renameLabel c.name, c.cells.map cleanCell⟩)

/-- On success the input columns survive in position and order, renamed
and cell-wise cleaned. -/
theorem normalize_cols_take (d out : Df)
    (h : normalize_dataframe d = Except.ok out) :
    out.cols.take d.cols.length
      = d.cols.map (fun c => ⟨renameLabel c.name, c.cells.map cleanCell⟩) := by
  unfold normalize_dataframe cleanCols at h
  obtain ⟨ext, hyext⟩ := addDefaults_cols_prefix (renameCols d)
  revert h hyext
  generalize addDefaults (renameCols d) = y
  intro h hyext
  by_cases hnd : (dfNames y).Nodup
  · rw [if_pos hnd] at h
    have hout : out = ⟨y.nrows, y.cols.map cleanCol⟩ := (Except.ok.inj h).symm
    have hcols : out.cols = y.cols.map cleanCol := by rw [hout]
    rw [hcols, hyext, List.map_append]
    have hlen : ((renameCols d).cols.map cleanCol).length = d.cols.length := by
      unfold renameCols
      simp
    rw [← hlen, List.take_left]
    unfold renameCols
    rw [List.map_map]
    rfl
  · rw [if_neg hnd] at h
    simp at h

/-- C4: on every input on which the normalizer returns (it raises only for
colliding column labels, see C9), the output has all six canonical fields,
every value a trimmed string and never missing, the documented defaults
for absent fields, and input row order preserved. -/
theorem c4_normalize_fields (d out : Df) (hwf : d.WF)
    (h : normalize_dataframe d = Except.ok out) : normalizeConclusion d out := by
  have htake := normalize_cols_take d out h
  unfold normalize_dataframe cleanCols at h
  unfold normalizeConclusion
  have hynr : (addDefaults (renameCols d)).nrows = d.nrows := by
    rw [addDefaults_nrows, renameCols_nrows]
  have hywf : (addDefaults (renameCols d)).WF :=
    WF_addDefaults _ (WF_renameCols _ hwf)
  have hycanon : ∀ f ∈ canonicalNames, f ∈ dfNames (addDefaults (renameCols d)) :=
    fun f hf => canonical_mem_addDefaults _ f hf
  have hydef : ∀ f ∈ canonicalNames, (∀ c ∈ d.cols, classify c.name ≠ some f) →
      Col.mk f (List.replicate d.nrows (defaultCellFor f))
        ∈ (addDefaults (renameCols d)).cols := by
    intro f hf habs
    have habsent : f ∉ dfNames (renameCols d) := by
      rw [dfNames_renameCols]
      intro hmem
      simp only [List.mem_map] at hmem
      obtain ⟨c0, hc0, hrn⟩ := hmem
      exact habs c0 hc0 (renameLabel_canon c0.name f hf hrn)
    have hmem0 := addDefaults_default_mem (renameCols d) f hf habsent
    rw [renameCols_nrows] at hmem0
    exact hmem0
  revert hynr hywf hycanon hydef h
  generalize addDefaults (renameCols d) = y
  intro h hynr hywf hycanon hydef
  by_cases hnd : (dfNames y).Nodup
  · rw [if_pos hnd] at h
    have hout : out = ⟨y.nrows, y.cols.map cleanCol⟩ := (Except.ok.inj h).symm
    have hnr : out.nrows = y.nrows := by rw [hout]
    have hcols : out.cols = y.cols.map cleanCol := by rw [hout]
    have hndout : (out.cols.map (·.name)).Nodup := by
      rw [hcols, dfNames_map_cleanCol]
      exact hnd
    refine ⟨by rw [hnr, hynr], ?_, ?_, ?_, ?_, ?_⟩
    · intro c hc
      rw [hcols] at hc
      simp only [List.mem_map] at hc
      obtain ⟨c0, hc0, rfl⟩ := hc
      unfold cleanCol
      simp only [List.length_map]
      rw [hnr]
      exact hywf c0 hc0
    · intro f hf
      apply filter_name_length_one _ _ hndout
      have hmem : f ∈ dfNames y := hycanon f hf
      unfold dfNames at hmem
      simp only [List.mem_map] at hmem
      obtain ⟨c0, hc0, hname⟩ := hmem
      exact ⟨cleanCol c0, by rw [hcols]; exact List.mem_map_of_mem _ hc0, hname⟩
    · intro c hc x hx
      rw [hcols] at hc
      simp only [List.mem_map] at hc
      obtain ⟨c0, _, rfl⟩ := hc
      unfold cleanCol at hx
      simp only [List.mem_map] at hx
      obtain ⟨z, _, rfl⟩ := hx
      exact cleanCell_trimmed z
    · intro f hf habs
      have hmem1 := hydef f hf habs
      have hmem2 : Col.mk f (List.replicate d.nrows (defaultCellFor f))
          ∈ y.cols.map cleanCol := by
        have hcl : cleanCol ⟨f, List.replicate d.nrows (defaultCellFor f)⟩
            = ⟨f, List.replicate d.nrows (defaultCellFor f)⟩ := by
          unfold cleanCol
          rw [List.map_replicate, cleanCell_defaultCellFor]
        rw [← hcl]
        exact List.mem_map_of_mem _ hmem1
      unfold findCol
      exact find?_name_of_nodup out.cols f _ hndout (by rw [hcols]; exact hmem2) rfl
    · exact htake
  · rw [if_neg hnd] at h
    simp at h

/-- A one-row input frame whose only column classifies to title. -/
def activityDf : Df :=
  ⟨1, [⟨"Activity", [Cell.str " Run "]⟩]⟩

/-- The normalized result of activityDf. -/
def activityDfOut : Df :=
  ⟨1, [⟨"title", [Cell.str "Run"]⟩, ⟨"day", [Cell.str ""]⟩, ⟨"start", [Cell.str ""]⟩,
       ⟨"end", [Cell.str ""]⟩, ⟨"archetype", [Cell.str "CHR – Chronos"]⟩,
       ⟨"notes", [Cell.str ""]⟩]⟩

/-- C4 witness: the guarantees hold at a concrete one-row, one-column
frame. -/
theorem c4_normalize_fields_witness :
    Df.WF activityDf ∧ normalizeConclusion activityDf activityDfOut :=
  ⟨by unfold Df.WF; decide,
   c4_normalize_fields activityDf activityDfOut (by unfold Df.WF; decide) (by rfl)⟩

/-- A one-row frame with a column no keyword rule matches. -/
def locationDf : Df :=
  ⟨1, [⟨"Location", [Cell.str "Paris"]⟩]⟩

/-- The normalized result of locationDf: the unmatched column survives
with its data. -/
def locationDfOut : Df :=
  ⟨1, [⟨"Location", [Cell.str "Paris"]⟩, ⟨"day", [Cell.str ""]⟩, ⟨"title", [Cell.str ""]⟩,
       ⟨"start", [Cell.str ""]⟩, ⟨"end", [Cell.str ""]⟩,
       ⟨"archetype", [Cell.str "CHR – Chronos"]⟩, ⟨"notes", [Cell.str ""]⟩]⟩

/-- C8 counterexample: "Location" matches none of the keyword rules, yet
its column and data are present, not dropped, in the normalized output the
code returns for this concrete input. -/
theorem c8_counterexample :
    classify "Location" = none ∧
    normalize_dataframe locationDf = Except.ok locationDfOut ∧
    Col.mk "Location" [Cell.str "Paris"] ∈ locationDfOut.cols := by
  exact ⟨rfl, rfl, by decide⟩

/-- C8 amended: unmatched columns are retained in the normalized frame, at
their original position and under their original label, with their cells
cleaned like every other column.  They are merely never read as one of the
six canonical Event fields downstream. -/
theorem c8_unmatched_retained (d out : Df)
    (h : normalize_dataframe d = Except.ok out) :
    out.cols.take d.cols.length
      = d.cols.map (fun c => ⟨renameLabel c.name, c.cells.map cleanCell⟩) ∧
    ∀ c ∈ d.cols, classify c.name = none →
      Col.mk c.name (c.cells.map cleanCell) ∈ out.cols := by
  have htake := normalize_cols_take d out h
  refine ⟨htake, ?_⟩
  intro c hc hcl
  have hmem : Col.mk (renameLabel c.name) (c.cells.map cleanCell)
      ∈ out.cols.take d.cols.length := by
    rw [htake]
    exact List.mem_map_of_mem _ hc
  have hrn : renameLabel c.name = c.name := by
    unfold renameLabel
    rw [hcl]
    rfl
  rw [hrn] at hmem
  exact List.take_subset _ _ hmem

/-- C8 witness: the amended retention statement at the concrete frame. -/
theorem c8_unmatched_retained_witness :
    Col.mk "Location" ([Cell.str "Paris"].map cleanCell) ∈ locationDfOut.cols :=
  (c8_unmatched_retained locationDf locationDfOut (by rfl)).2
    ⟨"Location", [Cell.str "Paris"]⟩ (by decide) (by rfl)

/-- A one-row frame with two columns that both classify to day. -/
def dupDayDf : Df :=
  ⟨1, [⟨"Day", [Cell.str "Monday"]⟩, ⟨"Date", [Cell.str "2024-01-01"]⟩]⟩

/-- C9 counterexample: both labels map to the canonical day field, and on
this input the normalizer does not return a merged frame at all: rename
produces two columns labelled day, and the cleaning loop raises, so the
result is the error, not a frame with one value per canonical field per
row. -/
theorem c9_counterexample :
    classify "Day" = some "day" ∧ classify "Date" = some "day" ∧
    normalize_dataframe dupDayDf = Except.error dupErrorMsg :=
  ⟨rfl, rfl, rfl⟩

/-- C9 amended: whenever two input columns classify to the same canonical
field, df.rename yields duplicate labels and the cleaning step raises
AttributeError (df[label] is then a two-column frame without the .str
accessor), so normalization fails instead of merging; the per-file
exception handler in the caller then leaves that schedule empty.  No
last-write-wins overwrite happens at rename time. -/
theorem c9_duplicate_mapping_errors (d : Df) (pre : List Col) (c1 : Col)
    (mid : List Col) (c2 : Col) (post : List Col) (f : String)
    (hsplit : d.cols = pre ++ c1 :: (mid ++ c2 :: post))
    (h1 : classify c1.name = some f) (h2 : classify c2.name = some f) :
    normalize_dataframe d = Except.error dupErrorMsg := by
  unfold normalize_dataframe cleanCols
  have hc1 : renameLabel c1.name = f := by
    unfold renameLabel
    rw [h1]
    rfl
  have hc2 : renameLabel c2.name = f := by
    unfold renameLabel
    rw [h2]
    rfl
  have hrn : dfNames (renameCols d)
      = (pre.map (fun c => renameLabel c.name))
        ++ f :: ((mid.map (fun c => renameLabel c.name))
        ++ f :: (post.map (fun c => renameLabel c.name))) := by
    rw [dfNames_renameCols, hsplit]
    simp [hc1, hc2]
  have hcount : 2 ≤ (dfNames (renameCols d)).count f := by
    rw [hrn]
    simp [List.count_append, List.count_cons_self]
    omega
  have hnotnodup : ¬ (dfNames (renameCols d)).Nodup := by
    intro hnd
    have hle := List.nodup_iff_count_le_one.1 hnd f
    omega
  have hnotnodup2 : ¬ (dfNames (addDefaults (renameCols d))).Nodup := by
    obtain ⟨ext, hext⟩ := dfNames_addDefaults_prefix (renameCols d)
    rw [hext]
    intro hnd
    exact hnotnodup hnd.of_append_left
  rw [if_neg hnotnodup2]

/-- C9 witness: the amended failure statement at the concrete two-column
frame. -/
theorem c9_duplicate_mapping_errors_witness :
    normalize_dataframe dupDayDf = Except.error dupErrorMsg :=
  c9_duplicate_mapping_errors dupDayDf [] ⟨"Day", [Cell.str "Monday"]⟩ []
    ⟨"Date", [Cell.str "2024-01-01"]⟩ [] "day" (by rfl) (by rfl) (by rfl)

end Calendar
